import Mathlib

/-!
Verification of the mcp-run-python tool bridge.

This development gives a shallow embedding of the two halves of the
elicitation bridge of mcp-run-python:

* the guest bridge, `src/mcp_run_python/deno/src/tool_injection.py`
  (schema-aware argument marshalling, reply decoding, failure
  translation, and idempotent injection of tool callables into the
  guest globals), and
* the host adapter, `src/mcp_run_python/ext/pydantic_ai.py`
  (the elicitation callback answering discovery and execution
  requests with Accept or Decline outcomes).

Both sides exchange JSON text produced by Python `json.dumps` and
consumed by `json.loads`.  Those two stdlib functions are external to
the repository, so they are modelled here by an executable serializer
`jsonDumps` and parser `jsonParse` over a `Json` value type, together
with a proved round-trip theorem.  The model covers the
JSON-compatible values the bridge exchanges (null, booleans, arbitrary
precision integers, strings, arrays, objects); non-ASCII characters
are emitted literally rather than \u-escaped, which `json.loads`
treats identically.  Python dictionaries are modelled as ordered
association lists with Python insertion/update semantics.
-/

/-! ## Characters, digits and whitespace -/

/-- Whitespace recognised by the JSON scanner. -/
def charIsWs (c : Char) : Bool :=
  c = ' ' || c = '\t' || c = '\n' || c = '\r'

/-- Drop leading whitespace. -/
def skipWs : List Char → List Char
  | [] => []
  | c :: cs => if charIsWs c then skipWs cs else c :: cs

/-- ASCII decimal digit test. -/
def charIsDigit (c : Char) : Bool :=
  48 ≤ c.toNat && c.toNat ≤ 57

/-- Decimal digit character for a value below ten. -/
def digitChar (d : Nat) : Char := Char.ofNat (48 + d)

/-- Lower-case hexadecimal digit character for a value below sixteen. -/
def hexDigitChar (d : Nat) : Char :=
  if d < 10 then Char.ofNat (48 + d) else Char.ofNat (87 + d)

/-- Decimal digits of a natural number, most significant first
(fuel-indexed so that it is structural and kernel-reducible). -/
def natCharsAux : Nat → Nat → List Char
  | 0, _ => []
  | fuel + 1, n =>
    if n < 10 then [digitChar n]
    else natCharsAux fuel (n / 10) ++ [digitChar (n % 10)]

/-- Decimal digits of a natural number, as Python `str` renders it. -/
def natChars (n : Nat) : List Char := natCharsAux (n + 1) n

/-- Decimal rendering of an integer, as Python `str` renders it. -/
def intChars : Int → List Char
  | .ofNat n => natChars n
  | .negSucc m => '-' :: natChars (m + 1)

/-! ## JSON values -/

/-- JSON-compatible values exchanged over the elicitation channel.
Python dicts and lists of JSON-compatible values map to `obj` and
`arr`; `num` covers Python arbitrary-precision integers. -/
inductive Json where
  | null
  | bool (b : Bool)
  | num (n : Int)
  | str (s : String)
  | arr (xs : List Json)
  | obj (kvs : List (String × Json))

/-- Two lower-case hexadecimal digits of a value below 256. -/
def hexPair (n : Nat) : List Char := [hexDigitChar (n / 16), hexDigitChar (n % 16)]

/-- Escape one character of a JSON string the way `json.dumps` does:
quote, backslash and control characters are escaped, everything else
is emitted literally. -/
def escChar (c : Char) : List Char :=
  if c = '"' then ['\\', '"']
  else if c = '\\' then ['\\', '\\']
  else if c = '\n' then ['\\', 'n']
  else if c = '\t' then ['\\', 't']
  else if c = '\r' then ['\\', 'r']
  else if c.toNat = 8 then ['\\', 'b']
  else if c.toNat = 12 then ['\\', 'f']
  else if c.toNat < 32 then '\\' :: 'u' :: '0' :: '0' :: hexPair c.toNat
  else [c]

/-- Escape a whole string body. -/
def escList : List Char → List Char
  | [] => []
  | c :: cs => escChar c ++ escList cs

mutual
/-- Serialize a JSON value exactly as Python `json.dumps` with its
default separators (", " between items, ": " after keys). -/
def jdump : Json → List Char
  | .null => "null".data
  | .bool true => "true".data
  | .bool false => "false".data
  | .num n => intChars n
  | .str s => '"' :: (escList s.data ++ ['"'])
  | .arr [] => ['[', ']']
  | .arr (x :: xs) => '[' :: (jdump x ++ (jdumpArr xs ++ [']']))
  | .obj [] => ['{', '}']
  | .obj ((k, v) :: kvs) =>
    '{' :: ('"' :: (escList k.data ++ ('"' :: ':' :: ' ' :: (jdump v ++ (jdumpObj kvs ++ ['}'])))))
/-- Serialize the remaining elements of an array (each preceded by ", "). -/
def jdumpArr : List Json → List Char
  | [] => []
  | e :: es => ',' :: ' ' :: (jdump e ++ jdumpArr es)
/-- Serialize the remaining members of an object (each preceded by ", "). -/
def jdumpObj : List (String × Json) → List Char
  | [] => []
  | (key, w) :: tl =>
    ',' :: ' ' :: '"' :: (escList key.data ++ ('"' :: ':' :: ' ' :: (jdump w ++ jdumpObj tl)))
end

/-- The model of Python `json.dumps` on JSON-compatible values. -/
def jsonDumps (v : Json) : String := String.mk (jdump v)

/-! ## JSON parser (model of Python `json.loads`) -/

/-- Hexadecimal digit test. -/
def charIsHex (c : Char) : Bool :=
  charIsDigit c || (97 ≤ c.toNat && c.toNat ≤ 102) || (65 ≤ c.toNat && c.toNat ≤ 70)

/-- Value of one hexadecimal digit character. -/
def hexVal (c : Char) : Nat :=
  if c.toNat ≤ 57 then c.toNat - 48
  else if c.toNat ≤ 70 then c.toNat - 55
  else c.toNat - 87

/-- Prepend a character to the string part of a string-parse result. -/
def consRes (c : Char) : Option (List Char × List Char) → Option (List Char × List Char)
  | none => none
  | some (s, rest) => some (c :: s, rest)

/-- Parse the body of a JSON string after the opening quote, returning
the decoded characters and the input after the closing quote.  Escape
sequences follow the JSON grammar; unescaped control characters are
rejected as `json.loads` does in strict mode. -/
def parseStrBody : List Char → Option (List Char × List Char)
  | [] => none
  | c :: r =>
    if c = '"' then some ([], r)
    else if c = '\\' then
      match r with
      | [] => none
      | e :: r2 =>
        if e = '"' then consRes '"' (parseStrBody r2)
        else if e = '\\' then consRes '\\' (parseStrBody r2)
        else if e = '/' then consRes '/' (parseStrBody r2)
        else if e = 'b' then consRes (Char.ofNat 8) (parseStrBody r2)
        else if e = 'f' then consRes (Char.ofNat 12) (parseStrBody r2)
        else if e = 'n' then consRes '\n' (parseStrBody r2)
        else if e = 'r' then consRes '\r' (parseStrBody r2)
        else if e = 't' then consRes '\t' (parseStrBody r2)
        else if e = 'u' then
          match r2 with
          | a :: b :: c2 :: d :: r3 =>
            if charIsHex a && charIsHex b && charIsHex c2 && charIsHex d then
              consRes (Char.ofNat (hexVal a * 4096 + hexVal b * 256 + hexVal c2 * 16 + hexVal d))
                (parseStrBody r3)
            else none
          | _ => none
        else none
    else if c.toNat < 32 then none
    else consRes c (parseStrBody r)
termination_by structural cs => cs

/-- Split off the longest run of leading decimal digits. -/
def spanDigits : List Char → List Char × List Char
  | [] => ([], [])
  | c :: r =>
    if charIsDigit c then
      let p := spanDigits r
      (c :: p.1, p.2)
    else ([], c :: r)

/-- Numeric value of a digit run, accumulator style. -/
def digitsVal (acc : Nat) : List Char → Nat
  | [] => acc
  | c :: r => digitsVal (acc * 10 + (c.toNat - 48)) r

/-- Parse a nonempty run of decimal digits. -/
def parseNatNum (cs : List Char) : Option (Nat × List Char) :=
  match spanDigits cs with
  | ([], _) => none
  | (ds, rest) => some (digitsVal 0 ds, rest)

/-- Does the input start with the given character? -/
def headIs (cs : List Char) (c : Char) : Bool :=
  match cs with
  | [] => false
  | x :: _ => x = c

mutual
/-- Fuel-indexed recursive-descent parser for one JSON value;
returns the value and the unconsumed input. -/
def parseJ : Nat → List Char → Option (Json × List Char)
  | 0, _ => none
  | f + 1, cs0 =>
    match skipWs cs0 with
    | [] => none
    | c :: r =>
      if charIsDigit c then
        match parseNatNum (c :: r) with
        | none => none
        | some (n, rest) => some (.num (n : Int), rest)
      else if c = '-' then
        match parseNatNum r with
        | none => none
        | some (n, rest) => some (.num (-(n : Int)), rest)
      else if c = '"' then
        match parseStrBody r with
        | none => none
        | some (s, rest) => some (.str (String.mk s), rest)
      else if c = '[' then
        if headIs (skipWs r) ']' then some (.arr [], (skipWs r).tail)
        else
          match parseJ f (skipWs r) with
          | none => none
          | some (v, r2) =>
            match parseArrTail f r2 with
            | none => none
            | some (vs, r3) => some (.arr (v :: vs), r3)
      else if c = '{' then
        if headIs (skipWs r) '}' then some (.obj [], (skipWs r).tail)
        else
          match skipWs r with
          | '"' :: r1 =>
            match parseStrBody r1 with
            | none => none
            | some (k, r2) =>
              if headIs (skipWs r2) ':' then
                match parseJ f (skipWs r2).tail with
                | none => none
                | some (v, r4) =>
                  match parseObjTail f r4 with
                  | none => none
                  | some (kvs, r5) => some (.obj ((String.mk k, v) :: kvs), r5)
              else none
          | _ => none
      else if c = 'n' then
        match r with
        | 'u' :: 'l' :: 'l' :: r2 => some (.null, r2)
        | _ => none
      else if c = 't' then
        match r with
        | 'r' :: 'u' :: 'e' :: r2 => some (.bool true, r2)
        | _ => none
      else if c = 'f' then
        match r with
        | 'a' :: 'l' :: 's' :: 'e' :: r2 => some (.bool false, r2)
        | _ => none
      else none
/-- Parse the rest of an array after its first element: a possibly
empty sequence of ", value" items followed by "]". -/
def parseArrTail : Nat → List Char → Option (List Json × List Char)
  | 0, _ => none
  | f + 1, cs0 =>
    match skipWs cs0 with
    | ']' :: r => some ([], r)
    | ',' :: r =>
      match parseJ f r with
      | none => none
      | some (v, r2) =>
        match parseArrTail f r2 with
        | none => none
        | some (vs, r3) => some (v :: vs, r3)
    | _ => none
/-- Parse the rest of an object after its first member: a possibly
empty sequence of ", \"key\": value" items followed by "\x7d". -/
def parseObjTail : Nat → List Char → Option (List (String × Json) × List Char)
  | 0, _ => none
  | f + 1, cs0 =>
    match skipWs cs0 with
    | '}' :: r => some ([], r)
    | ',' :: r =>
      match skipWs r with
      | '"' :: r1 =>
        match parseStrBody r1 with
        | none => none
        | some (k, r2) =>
          if headIs (skipWs r2) ':' then
            match parseJ f (skipWs r2).tail with
            | none => none
            | some (v, r4) =>
              match parseObjTail f r4 with
              | none => none
              | some (kvs, r5) => some ((String.mk k, v) :: kvs, r5)
          else none
      | _ => none
    | _ => none
end

/-- The model of Python `json.loads`: parse one JSON document and
reject trailing garbage. -/
def jsonParse (s : String) : Except String Json :=
  match parseJ (s.data.length + 1) s.data with
  | none => .error "Expecting value"
  | some (v, rest) =>
    if (skipWs rest).isEmpty then .ok v else .error "Extra data"

/-! ## Round-trip: numbers -/

/-- The input does not start with a decimal digit (so a preceding
number literal cannot be extended by it). -/
def noDigitHead : List Char → Bool
  | [] => true
  | c :: _ => !charIsDigit c

theorem toNat_charOfNat (n : Nat) (h : n < 55296) : (Char.ofNat n).toNat = n := by
  unfold Char.ofNat
  rw [dif_pos (Or.inl h)]
  rfl

theorem digitChar_toNat (d : Nat) (h : d < 10) : (digitChar d).toNat = 48 + d := by
  exact toNat_charOfNat _ (by omega)

theorem charIsDigit_digitChar (d : Nat) (h : d < 10) : charIsDigit (digitChar d) = true := by
  simp [charIsDigit, digitChar_toNat d h]
  omega

theorem natCharsAux_digits (fuel : Nat) : ∀ n, n < fuel →
    ∀ ch ∈ natCharsAux fuel n, charIsDigit ch = true := by
  induction fuel with
  | zero => intro n hn; omega
  | succ fuel ih =>
    intro n hn ch hcm
    by_cases h10 : n < 10
    · simp [natCharsAux, h10] at hcm
      subst hcm
      exact charIsDigit_digitChar n h10
    · have hq : n / 10 < n := Nat.div_lt_self (by omega) (by norm_num)
      simp [natCharsAux, h10] at hcm
      rcases hcm with hcm | hcm
      · exact ih (n / 10) (by omega) ch hcm
      · subst hcm
        exact charIsDigit_digitChar _ (Nat.mod_lt _ (by omega))

theorem natCharsAux_ne_nil (fuel n : Nat) (h : n < fuel) : natCharsAux fuel n ≠ [] := by
  cases fuel with
  | zero => omega
  | succ fuel =>
    by_cases h10 : n < 10 <;> simp [natCharsAux, h10]

theorem natChars_digits (n : Nat) : ∀ c ∈ natChars n, charIsDigit c = true :=
  natCharsAux_digits (n + 1) n (by omega)

theorem natChars_ne_nil (n : Nat) : natChars n ≠ [] :=
  natCharsAux_ne_nil (n + 1) n (by omega)

theorem digitsVal_append (xs ys : List Char) : ∀ acc,
    digitsVal acc (xs ++ ys) = digitsVal (digitsVal acc xs) ys := by
  induction xs with
  | nil => intro acc; rfl
  | cons x xs ih =>
    intro acc
    rw [List.cons_append]
    show digitsVal (acc * 10 + (x.toNat - 48)) (xs ++ ys) = _
    rw [ih]
    rfl

theorem digitsVal_natCharsAux (fuel : Nat) : ∀ n acc, n < fuel →
    digitsVal acc (natCharsAux fuel n) = acc * 10 ^ (natCharsAux fuel n).length + n := by
  induction fuel with
  | zero => intro n acc hn; omega
  | succ fuel ih =>
    intro n acc hn
    by_cases h10 : n < 10
    · have hlist : natCharsAux (fuel + 1) n = [digitChar n] := by
        simp [natCharsAux, h10]
      rw [hlist]
      have hd : digitsVal acc [digitChar n] = acc * 10 + n := by
        show acc * 10 + ((digitChar n).toNat - 48) = acc * 10 + n
        rw [digitChar_toNat n h10]
        omega
      rw [hd]
      simp
    · have hq : n / 10 < n := Nat.div_lt_self (by omega) (by norm_num)
      have hmod : n % 10 < 10 := Nat.mod_lt _ (by omega)
      simp only [natCharsAux, if_neg h10]
      rw [digitsVal_append, ih (n / 10) acc (by omega)]
      have hd2 : ∀ a, digitsVal a [digitChar (n % 10)] = a * 10 + n % 10 := by
        intro a
        show a * 10 + ((digitChar (n % 10)).toNat - 48) = a * 10 + n % 10
        rw [digitChar_toNat _ hmod]
        omega
      rw [hd2]
      have hlen : (natCharsAux fuel (n / 10) ++ [digitChar (n % 10)]).length
          = (natCharsAux fuel (n / 10)).length + 1 := by simp
      rw [hlen, pow_succ, ← mul_assoc]
      generalize acc * 10 ^ (natCharsAux fuel (n / 10)).length = Q
      omega

theorem digitsVal_natChars (n : Nat) : digitsVal 0 (natChars n) = n := by
  have := digitsVal_natCharsAux (n + 1) n 0 (by omega)
  simpa [natChars] using this

theorem spanDigits_all_digits (ds : List Char) (rest : List Char)
    (hds : ∀ c ∈ ds, charIsDigit c = true)
    (hrest : noDigitHead rest = true) :
    spanDigits (ds ++ rest) = (ds, rest) := by
  induction ds with
  | nil =>
    cases rest with
    | nil => rfl
    | cons c r =>
      simp [noDigitHead] at hrest
      simp [spanDigits, hrest]
  | cons d ds ih =>
    have hd : charIsDigit d = true := hds d (by simp)
    have := ih (fun c hc => hds c (by simp [hc]))
    simp [spanDigits, hd, this]

theorem parseNatNum_natChars (n : Nat) (rest : List Char)
    (hrest : noDigitHead rest = true) :
    parseNatNum (natChars n ++ rest) = some (n, rest) := by
  unfold parseNatNum
  rw [spanDigits_all_digits (natChars n) rest (natChars_digits n) hrest]
  have hne := natChars_ne_nil n
  cases hnc : natChars n with
  | nil => exact absurd hnc hne
  | cons d ds =>
    show some (digitsVal 0 (d :: ds), rest) = some (n, rest)
    rw [← hnc, digitsVal_natChars]

/-! ## Round-trip: strings -/

theorem char_ne_of_toNat_ne {c d : Char} (h : c.toNat ≠ d.toNat) : c ≠ d :=
  fun he => h (he ▸ rfl)

theorem hexDigitChar_toNat (d : Nat) (h : d < 16) :
    (hexDigitChar d).toNat = if d < 10 then 48 + d else 87 + d := by
  unfold hexDigitChar
  by_cases h10 : d < 10
  · rw [if_pos h10, if_pos h10]
    exact toNat_charOfNat _ (by omega)
  · rw [if_neg h10, if_neg h10]
    exact toNat_charOfNat _ (by omega)

theorem charIsHex_hexDigitChar (d : Nat) (h : d < 16) :
    charIsHex (hexDigitChar d) = true := by
  have ht := hexDigitChar_toNat d h
  by_cases h10 : d < 10 <;>
    simp [h10, charIsHex, charIsDigit, ht] <;> omega

theorem hexVal_hexDigitChar (d : Nat) (h : d < 16) : hexVal (hexDigitChar d) = d := by
  have ht := hexDigitChar_toNat d h
  unfold hexVal
  by_cases h10 : d < 10
  · rw [if_pos h10] at ht
    rw [ht, if_pos (by omega)]
    omega
  · rw [if_neg h10] at ht
    rw [ht, if_neg (by omega), if_neg (by omega)]
    omega

theorem skipWs_not_ws {c : Char} (h : charIsWs c = false) (cs : List Char) :
    skipWs (c :: cs) = c :: cs := by
  simp [skipWs, h]

theorem skipWs_ws {c : Char} (h : charIsWs c = true) (cs : List Char) :
    skipWs (c :: cs) = skipWs cs := by
  simp [skipWs, h]

theorem parseStrBody_escList (cs : List Char) : ∀ rest : List Char,
    parseStrBody (escList cs ++ ('"' :: rest)) = some (cs, rest) := by
  induction cs with
  | nil =>
    intro rest
    rw [show escList [] ++ ('"' :: rest) = '"' :: rest from rfl, parseStrBody.eq_def]
    simp
  | cons c cs ih =>
    intro rest
    show parseStrBody ((escChar c ++ escList cs) ++ ('"' :: rest)) = some (c :: cs, rest)
    rw [List.append_assoc]
    by_cases h1 : c = '"'
    · subst h1
      rw [show escChar '"' = ['\\', '"'] from by decide]
      rw [List.cons_append, List.cons_append, parseStrBody.eq_def]
      simp [consRes, ih]
    · by_cases h2 : c = '\\'
      · subst h2
        rw [show escChar '\\' = ['\\', '\\'] from by decide]
        rw [List.cons_append, List.cons_append, parseStrBody.eq_def]
        simp [consRes, ih]
      · by_cases h3 : c = '\n'
        · subst h3
          rw [show escChar '\n' = ['\\', 'n'] from by decide]
          rw [List.cons_append, List.cons_append, parseStrBody.eq_def]
          simp [consRes, ih]
        · by_cases h4 : c = '\t'
          · subst h4
            rw [show escChar '\t' = ['\\', 't'] from by decide]
            rw [List.cons_append, List.cons_append, parseStrBody.eq_def]
            simp [consRes, ih]
          · by_cases h5 : c = '\r'
            · subst h5
              rw [show escChar '\r' = ['\\', 'r'] from by decide]
              rw [List.cons_append, List.cons_append, parseStrBody.eq_def]
              simp [consRes, ih]
            · by_cases h6 : c.toNat = 8
              · have hesc : escChar c = ['\\', 'b'] := by
                  unfold escChar
                  rw [if_neg h1, if_neg h2, if_neg h3, if_neg h4, if_neg h5, if_pos h6]
                rw [hesc]
                have hc8 : Char.ofNat 8 = c := by
                  rw [← h6, Char.ofNat_toNat]
                rw [List.cons_append, List.cons_append, parseStrBody.eq_def]
                simp [consRes, ih]
                exact hc8
              · by_cases h7 : c.toNat = 12
                · have hesc : escChar c = ['\\', 'f'] := by
                    unfold escChar
                    rw [if_neg h1, if_neg h2, if_neg h3, if_neg h4, if_neg h5,
                      if_neg h6, if_pos h7]
                  rw [hesc]
                  have hc12 : Char.ofNat 12 = c := by
                    rw [← h7, Char.ofNat_toNat]
                  rw [List.cons_append, List.cons_append, parseStrBody.eq_def]
                  simp [consRes, ih]
                  exact hc12
                · by_cases h8 : c.toNat < 32
                  · set d1 := hexDigitChar (c.toNat / 16) with hd1
                    set d2 := hexDigitChar (c.toNat % 16) with hd2
                    have hesc : escChar c = ['\\', 'u', '0', '0', d1, d2] := by
                      unfold escChar
                      rw [if_neg h1, if_neg h2, if_neg h3, if_neg h4, if_neg h5,
                        if_neg h6, if_neg h7, if_pos h8]
                      rfl
                    rw [hesc]
                    have hhexd : charIsHex d1 = true := by
                      rw [hd1]
                      exact charIsHex_hexDigitChar _ (by omega)
                    have hhexm : charIsHex d2 = true := by
                      rw [hd2]
                      exact charIsHex_hexDigitChar _ (by omega)
                    have hv0 : hexVal '0' = 0 := by decide
                    have harg : hexVal '0' * 4096 + hexVal '0' * 256 +
                        hexVal d1 * 16 + hexVal d2 = c.toNat := by
                      rw [hv0, hd1, hd2, hexVal_hexDigitChar _ (by omega),
                        hexVal_hexDigitChar _ (by omega)]
                      omega
                    have hC0 : charIsHex '0' = true := by decide
                    rw [List.cons_append, List.cons_append, List.cons_append,
                      List.cons_append, List.cons_append, List.cons_append,
                      parseStrBody.eq_def]
                    simp [consRes, hhexd, hhexm, hC0, harg, Char.ofNat_toNat, ih]
                  · have hesc : escChar c = [c] := by
                      unfold escChar
                      rw [if_neg h1, if_neg h2, if_neg h3, if_neg h4, if_neg h5,
                        if_neg h6, if_neg h7, if_neg h8]
                    rw [hesc, List.cons_append, parseStrBody.eq_def]
                    simp [consRes, h1, h2, h8, ih]

/-! ## Round-trip: whole values -/

mutual
/-- Fuel needed by `parseJ` to parse the dump of a value. -/
def jneed : Json → Nat
  | .arr (e :: es) => 1 + max (jneed e) (jneedArr es)
  | .obj ((_, w) :: tl) => 1 + max (jneed w) (jneedObj tl)
  | _ => 1
/-- Fuel needed by `parseArrTail` for the dumped tail of an array. -/
def jneedArr : List Json → Nat
  | e :: es => 1 + max (jneed e) (jneedArr es)
  | [] => 1
/-- Fuel needed by `parseObjTail` for the dumped tail of an object. -/
def jneedObj : List (String × Json) → Nat
  | (_, w) :: tl => 1 + max (jneed w) (jneedObj tl)
  | [] => 1
end

theorem jneed_pos (v : Json) : 1 ≤ jneed v := by
  cases v with
  | null => simp [jneed]
  | bool b => simp [jneed]
  | num n => simp [jneed]
  | str s => simp [jneed]
  | arr xs =>
    cases xs with
    | nil => simp [jneed]
    | cons x xs => simp [jneed]
  | obj kvs =>
    cases kvs with
    | nil => simp [jneed]
    | cons kv kvs => cases kv; simp [jneed]

theorem jneedArr_pos (xs : List Json) : 1 ≤ jneedArr xs := by
  cases xs with
  | nil => simp [jneedArr]
  | cons x xs => simp [jneedArr]

theorem jneedObj_pos (kvs : List (String × Json)) : 1 ≤ jneedObj kvs := by
  cases kvs with
  | nil => simp [jneedObj]
  | cons kv kvs => cases kv; simp [jneedObj]

theorem char_ne_of_fn {f : Char → Bool} {c d : Char} (hc : f c = true) (hd : f d = false) :
    c ≠ d := by
  intro he
  rw [he, hd] at hc
  cases hc

theorem charIsWs_false_of_digit {c : Char} (h : charIsDigit c = true) :
    charIsWs c = false := by
  rw [Bool.eq_false_iff]
  intro hws
  simp only [charIsWs, Bool.or_eq_true, decide_eq_true_eq] at hws
  rcases hws with ((h1 | h1) | h1) | h1 <;> (subst h1; exact absurd h (by decide))

theorem natChars_head (n : Nat) :
    ∃ d ds, natChars n = d :: ds ∧ charIsDigit d = true := by
  cases h : natChars n with
  | nil => exact absurd h (natChars_ne_nil n)
  | cons d ds =>
    refine ⟨d, ds, rfl, natChars_digits n d ?_⟩
    rw [h]
    simp

theorem jdump_head (v : Json) :
    ∃ c cs, jdump v = c :: cs ∧ charIsWs c = false ∧ c ≠ ']' := by
  cases v with
  | null => exact ⟨'n', ['u', 'l', 'l'], rfl, rfl, by decide⟩
  | bool b =>
    cases b
    · exact ⟨'f', ['a', 'l', 's', 'e'], rfl, rfl, by decide⟩
    · exact ⟨'t', ['r', 'u', 'e'], rfl, rfl, by decide⟩
  | num n =>
    cases n with
    | ofNat m =>
      obtain ⟨d, ds, hnd, hdig⟩ := natChars_head m
      refine ⟨d, ds, ?_, charIsWs_false_of_digit hdig, char_ne_of_fn hdig (by decide)⟩
      rw [show jdump (.num (Int.ofNat m)) = natChars m from by simp [jdump, intChars]]
      exact hnd
    | negSucc m =>
      exact ⟨'-', natChars (m + 1), by simp [jdump, intChars], by decide, by decide⟩
  | str s => exact ⟨'"', escList s.data ++ ['"'], by simp [jdump], by decide, by decide⟩
  | arr xs =>
    cases xs with
    | nil => exact ⟨'[', [']'], by simp [jdump], by decide, by decide⟩
    | cons x xs =>
      exact ⟨'[', jdump x ++ (jdumpArr xs ++ [']']), by simp [jdump], by decide, by decide⟩
  | obj kvs =>
    cases kvs with
    | nil => exact ⟨'{', ['}'], by simp [jdump], by decide, by decide⟩
    | cons kv kvs =>
      cases kv with
      | mk k v =>
        exact ⟨'{', '"' :: (escList k.data ++ ('"' :: ':' :: ' ' :: (jdump v ++ (jdumpObj kvs ++ ['}'])))),
          by simp [jdump], by decide, by decide⟩

theorem skipWs_jdump (v : Json) (t : List Char) :
    skipWs (jdump v ++ t) = jdump v ++ t := by
  obtain ⟨c, cs, h, hws, _⟩ := jdump_head v
  rw [h, List.cons_append, skipWs_not_ws hws]

theorem headIs_jdump_rb (v : Json) (t : List Char) :
    headIs (jdump v ++ t) ']' = false := by
  obtain ⟨c, cs, h, _, hne⟩ := jdump_head v
  rw [h, List.cons_append]
  simp [headIs, hne]

theorem noDigitHead_jdumpArr (xs : List Json) (rest : List Char) :
    noDigitHead (jdumpArr xs ++ (']' :: rest)) = true := by
  cases xs with
  | nil =>
    simp [jdumpArr, noDigitHead]
    decide
  | cons x xs =>
    rw [show jdumpArr (x :: xs) = ',' :: ' ' :: (jdump x ++ jdumpArr xs) from by simp [jdumpArr]]
    simp [noDigitHead]
    decide

theorem noDigitHead_jdumpObj (kvs : List (String × Json)) (rest : List Char) :
    noDigitHead (jdumpObj kvs ++ ('}' :: rest)) = true := by
  cases kvs with
  | nil =>
    simp [jdumpObj, noDigitHead]
    decide
  | cons kv kvs =>
    cases kv with
    | mk k v =>
      rw [show jdumpObj ((k, v) :: kvs)
          = ',' :: ' ' :: '"' :: (escList k.data ++ ('"' :: ':' :: ' ' :: (jdump v ++ jdumpObj kvs)))
          from by simp [jdumpObj]]
      simp [noDigitHead]
      decide

/-- Safety condition on what may follow a dumped value: a dumped
number must not be followed directly by another digit. -/
def numSafe : Json → List Char → Prop
  | .num _, rest => noDigitHead rest = true
  | _, _ => True

theorem numSafe_of_noDigitHead {rest : List Char} (h : noDigitHead rest = true)
    (v : Json) : numSafe v rest := by
  cases v <;> first | exact h | trivial

theorem string_mk_data (s : String) : String.mk s.data = s := by
  cases s
  rfl

theorem parseJ_natDigits (f : Nat) (n : Nat) (rest : List Char)
    (hrest : noDigitHead rest = true) :
    parseJ (f + 1) (natChars n ++ rest) = some (.num (n : Int), rest) := by
  obtain ⟨d, ds, hnat, hdig⟩ := natChars_head n
  rw [hnat, List.cons_append, parseJ.eq_def]
  simp only []
  rw [skipWs_not_ws (charIsWs_false_of_digit hdig)]
  simp only [hdig, if_pos]
  rw [← List.cons_append, ← hnat, parseNatNum_natChars n rest hrest]

theorem parseJ_negDigits (f : Nat) (m : Nat) (rest : List Char)
    (hrest : noDigitHead rest = true) :
    parseJ (f + 1) (('-' :: natChars (m + 1)) ++ rest) = some (.num (Int.negSucc m), rest) := by
  rw [List.cons_append, parseJ.eq_def]
  simp only []
  rw [skipWs_not_ws (by decide)]
  simp [show charIsDigit '-' = false from by decide,
    parseNatNum_natChars (m + 1) rest hrest]
  rw [Int.negSucc_eq]
  ring

theorem parseJ_strVal (f : Nat) (s : String) (rest : List Char) :
    parseJ (f + 1) (('"' :: (escList s.data ++ ['"'])) ++ rest) = some (.str s, rest) := by
  rw [List.cons_append, List.append_assoc, List.singleton_append, parseJ.eq_def]
  simp only []
  rw [skipWs_not_ws (by decide)]
  simp [show charIsDigit '"' = false from by decide,
    show ¬('"' : Char) = '-' from by decide,
    parseStrBody_escList s.data rest, string_mk_data]

theorem parseJ_cons_ws (f : Nat) {c : Char} (hc : charIsWs c = true) (cs : List Char) :
    parseJ f (c :: cs) = parseJ f cs := by
  cases f with
  | zero => rfl
  | succ g =>
    rw [parseJ.eq_def, parseJ.eq_def]
    simp only []
    rw [skipWs_ws hc]

mutual
/-- Parsing the dump of a value consumes exactly the dump and returns
the value, for any sufficient fuel. -/
theorem parseJ_jdump (v : Json) (f : Nat) (rest : List Char) (hf : jneed v ≤ f)
    (hsafe : numSafe v rest) : parseJ f (jdump v ++ rest) = some (v, rest) := by
  cases f with
  | zero => exact absurd hf (by have := jneed_pos v; omega)
  | succ f =>
    cases v with
    | null =>
      rw [show jdump Json.null = ['n', 'u', 'l', 'l'] from by simp [jdump]]
      rw [List.cons_append, parseJ.eq_def]
      simp only []
      rw [skipWs_not_ws (by decide)]
      simp [show charIsDigit 'n' = false from by decide]
    | bool b =>
      cases b with
      | true =>
        rw [show jdump (Json.bool true) = ['t', 'r', 'u', 'e'] from by simp [jdump]]
        rw [List.cons_append, parseJ.eq_def]
        simp only []
        rw [skipWs_not_ws (by decide)]
        simp [show charIsDigit 't' = false from by decide]
      | false =>
        rw [show jdump (Json.bool false) = ['f', 'a', 'l', 's', 'e'] from by simp [jdump]]
        rw [List.cons_append, parseJ.eq_def]
        simp only []
        rw [skipWs_not_ws (by decide)]
        simp [show charIsDigit 'f' = false from by decide]
    | num n =>
      cases n with
      | ofNat m =>
        rw [show jdump (Json.num (Int.ofNat m)) = natChars m from by simp [jdump, intChars]]
        exact parseJ_natDigits f m rest hsafe
      | negSucc m =>
        rw [show jdump (Json.num (Int.negSucc m)) = '-' :: natChars (m + 1)
          from by simp [jdump, intChars]]
        exact parseJ_negDigits f m rest hsafe
    | str s =>
      rw [show jdump (Json.str s) = '"' :: (escList s.data ++ ['"']) from by simp [jdump]]
      exact parseJ_strVal f s rest
    | arr xs =>
      cases xs with
      | nil =>
        rw [show jdump (Json.arr []) = ['[', ']'] from by simp [jdump]]
        rw [List.cons_append, parseJ.eq_def]
        simp only []
        rw [skipWs_not_ws (by decide)]
        simp [show charIsDigit '[' = false from by decide,
          skipWs_not_ws (show charIsWs ']' = false from by decide), headIs]
      | cons x xs =>
        have hx : jneed x ≤ f := by
          rw [show jneed (Json.arr (x :: xs)) = 1 + max (jneed x) (jneedArr xs)
            from by simp [jneed]] at hf
          omega
        have hxs : jneedArr xs ≤ f := by
          rw [show jneed (Json.arr (x :: xs)) = 1 + max (jneed x) (jneedArr xs)
            from by simp [jneed]] at hf
          omega
        have hsafe2 : numSafe x (jdumpArr xs ++ (']' :: rest)) :=
          numSafe_of_noDigitHead (noDigitHead_jdumpArr xs rest) x
        rw [show jdump (Json.arr (x :: xs)) = '[' :: (jdump x ++ (jdumpArr xs ++ [']']))
          from by simp [jdump]]
        rw [List.cons_append, parseJ.eq_def]
        simp only []
        rw [skipWs_not_ws (by decide)]
        simp [show charIsDigit '[' = false from by decide,
          skipWs_jdump x, headIs_jdump_rb x,
          parseJ_jdump x f (jdumpArr xs ++ (']' :: rest)) hx hsafe2,
          parseArrTail_jdumpArr xs f rest hxs]
    | obj kvs =>
      cases kvs with
      | nil =>
        rw [show jdump (Json.obj []) = ['{', '}'] from by simp [jdump]]
        rw [List.cons_append, parseJ.eq_def]
        simp only []
        rw [skipWs_not_ws (by decide)]
        simp [show charIsDigit '{' = false from by decide,
          skipWs_not_ws (show charIsWs '}' = false from by decide), headIs]
      | cons kv kvs =>
        cases kv with
        | mk k v =>
          have hv : jneed v ≤ f := by
            rw [show jneed (Json.obj ((k, v) :: kvs)) = 1 + max (jneed v) (jneedObj kvs)
              from by simp [jneed]] at hf
            omega
          have hkvs : jneedObj kvs ≤ f := by
            rw [show jneed (Json.obj ((k, v) :: kvs)) = 1 + max (jneed v) (jneedObj kvs)
              from by simp [jneed]] at hf
            omega
          have hsafe2 : numSafe v (jdumpObj kvs ++ ('}' :: rest)) :=
            numSafe_of_noDigitHead (noDigitHead_jdumpObj kvs rest) v
          rw [show jdump (Json.obj ((k, v) :: kvs))
              = '{' :: ('"' :: (escList k.data
                ++ ('"' :: ':' :: ' ' :: (jdump v ++ (jdumpObj kvs ++ ['}'])))))
            from by simp [jdump]]
          rw [List.cons_append, parseJ.eq_def]
          simp only []
          rw [skipWs_not_ws (by decide)]
          simp [show charIsDigit '{' = false from by decide,
            skipWs_not_ws (show charIsWs '"' = false from by decide),
            skipWs_not_ws (show charIsWs ':' = false from by decide), headIs,
            parseStrBody_escList k.data,
            parseJ_cons_ws f (show charIsWs ' ' = true from by decide),
            parseJ_jdump v f (jdumpObj kvs ++ ('}' :: rest)) hv hsafe2,
            parseObjTail_jdumpObj kvs f rest hkvs, string_mk_data]
/-- Parsing the dumped tail of an array (followed by a closing
bracket) recovers the remaining elements. -/
theorem parseArrTail_jdumpArr (xs : List Json) (f : Nat) (rest : List Char)
    (hf : jneedArr xs ≤ f) :
    parseArrTail f (jdumpArr xs ++ (']' :: rest)) = some (xs, rest) := by
  cases f with
  | zero => exact absurd hf (by have := jneedArr_pos xs; omega)
  | succ f =>
    cases xs with
    | nil =>
      rw [show jdumpArr [] = [] from by simp [jdumpArr], List.nil_append,
        parseArrTail.eq_def]
      simp only []
      rw [skipWs_not_ws (by decide)]
      simp
    | cons x xs =>
      have hx : jneed x ≤ f := by
        rw [show jneedArr (x :: xs) = 1 + max (jneed x) (jneedArr xs)
          from by simp [jneedArr]] at hf
        omega
      have hxs : jneedArr xs ≤ f := by
        rw [show jneedArr (x :: xs) = 1 + max (jneed x) (jneedArr xs)
          from by simp [jneedArr]] at hf
        omega
      have hsafe2 : numSafe x (jdumpArr xs ++ (']' :: rest)) :=
        numSafe_of_noDigitHead (noDigitHead_jdumpArr xs rest) x
      rw [show jdumpArr (x :: xs) = ',' :: ' ' :: (jdump x ++ jdumpArr xs)
        from by simp [jdumpArr]]
      rw [List.cons_append, List.cons_append, parseArrTail.eq_def]
      simp only []
      rw [skipWs_not_ws (by decide)]
      simp [parseJ_cons_ws f (show charIsWs ' ' = true from by decide),
        parseJ_jdump x f (jdumpArr xs ++ (']' :: rest)) hx hsafe2,
        parseArrTail_jdumpArr xs f rest hxs]
/-- Parsing the dumped tail of an object (followed by a closing
brace) recovers the remaining members. -/
theorem parseObjTail_jdumpObj (kvs : List (String × Json)) (f : Nat) (rest : List Char)
    (hf : jneedObj kvs ≤ f) :
    parseObjTail f (jdumpObj kvs ++ ('}' :: rest)) = some (kvs, rest) := by
  cases f with
  | zero => exact absurd hf (by have := jneedObj_pos kvs; omega)
  | succ f =>
    cases kvs with
    | nil =>
      rw [show jdumpObj [] = [] from by simp [jdumpObj], List.nil_append,
        parseObjTail.eq_def]
      simp only []
      rw [skipWs_not_ws (by decide)]
      simp
    | cons kv kvs =>
      cases kv with
      | mk k v =>
        have hv : jneed v ≤ f := by
          rw [show jneedObj ((k, v) :: kvs) = 1 + max (jneed v) (jneedObj kvs)
            from by simp [jneedObj]] at hf
          omega
        have hkvs : jneedObj kvs ≤ f := by
          rw [show jneedObj ((k, v) :: kvs) = 1 + max (jneed v) (jneedObj kvs)
            from by simp [jneedObj]] at hf
          omega
        have hsafe2 : numSafe v (jdumpObj kvs ++ ('}' :: rest)) :=
          numSafe_of_noDigitHead (noDigitHead_jdumpObj kvs rest) v
        rw [show jdumpObj ((k, v) :: kvs)
            = ',' :: ' ' :: '"' :: (escList k.data
              ++ ('"' :: ':' :: ' ' :: (jdump v ++ jdumpObj kvs)))
          from by simp [jdumpObj]]
        rw [List.cons_append, List.cons_append, List.cons_append, parseObjTail.eq_def]
        simp only []
        rw [skipWs_not_ws (by decide)]
        simp [skipWs_ws (show charIsWs ' ' = true from by decide),
          skipWs_not_ws (show charIsWs '"' = false from by decide),
          skipWs_not_ws (show charIsWs ':' = false from by decide), headIs,
          parseStrBody_escList k.data,
          parseJ_cons_ws f (show charIsWs ' ' = true from by decide),
          parseJ_jdump v f (jdumpObj kvs ++ ('}' :: rest)) hv hsafe2,
          parseObjTail_jdumpObj kvs f rest hkvs, string_mk_data]
end

mutual
/-- The fuel needed for a value is covered by the length of its dump. -/
theorem jneed_le_len (v : Json) : jneed v ≤ (jdump v).length := by
  cases v with
  | null => simp [jneed, jdump]
  | bool b => cases b <;> simp [jneed, jdump]
  | num n =>
    cases n with
    | ofNat m =>
      have h : 0 < (natChars m).length := List.length_pos.mpr (natChars_ne_nil m)
      simp only [jneed, jdump, intChars]
      omega
    | negSucc m => simp [jneed, jdump, intChars]
  | str s => simp [jneed, jdump]
  | arr xs =>
    cases xs with
    | nil => simp [jneed, jdump]
    | cons x xs =>
      have h1 := jneed_le_len x
      have h2 := jneedArr_le_len xs
      simp only [jneed, jdump, List.length_cons, List.length_append]
      simp
      omega
  | obj kvs =>
    cases kvs with
    | nil => simp [jneed, jdump]
    | cons kv kvs =>
      cases kv with
      | mk k v =>
        have h1 := jneed_le_len v
        have h2 := jneedObj_le_len kvs
        simp only [jneed, jdump, List.length_cons, List.length_append]
        simp
        omega
/-- Fuel bound for array tails. -/
theorem jneedArr_le_len (xs : List Json) : jneedArr xs ≤ (jdumpArr xs).length + 1 := by
  cases xs with
  | nil => simp [jneedArr, jdumpArr]
  | cons x xs =>
    have h1 := jneed_le_len x
    have h2 := jneedArr_le_len xs
    simp only [jneedArr, jdumpArr, List.length_cons, List.length_append]
    simp
    omega
/-- Fuel bound for object tails. -/
theorem jneedObj_le_len (kvs : List (String × Json)) :
    jneedObj kvs ≤ (jdumpObj kvs).length + 1 := by
  cases kvs with
  | nil => simp [jneedObj, jdumpObj]
  | cons kv kvs =>
    cases kv with
    | mk k v =>
      have h1 := jneed_le_len v
      have h2 := jneedObj_le_len kvs
      simp only [jneedObj, jdumpObj, List.length_cons, List.length_append]
      simp
      omega
end

/-- Round trip: the model of `json.loads` inverts the model of
`json.dumps` on every JSON-compatible value. -/
theorem jsonParse_jsonDumps (v : Json) : jsonParse (jsonDumps v) = .ok v := by
  unfold jsonParse jsonDumps
  rw [show (String.mk (jdump v)).data = jdump v from rfl]
  have hf : jneed v ≤ (jdump v).length + 1 := le_trans (jneed_le_len v) (by omega)
  have hpar := parseJ_jdump v ((jdump v).length + 1) [] hf
    (numSafe_of_noDigitHead (by simp [noDigitHead]) v)
  rw [List.append_nil] at hpar
  rw [hpar]
  simp [skipWs]

/-! ## Python dictionaries

Python dicts are insertion-ordered with unique keys.  They are
modelled as association lists; `pySet` models `d[k] = v` (replace in
place or append), `pyUpdate d o` models `d.update(o)` / `\x7b**d, **o\x7d`,
and `pyFromPairs` models `dict(pairs)`. -/

/-- `d.get(k)` / `d[k]`: the first binding of `k`. -/
def pyGet {β : Type} (d : List (String × β)) (k : String) : Option β :=
  match d with
  | [] => none
  | (k2, v) :: rest => if k2 = k then some v else pyGet rest k

/-- `d[k] = v`: replace the first binding of `k`, else append. -/
def pySet {β : Type} (d : List (String × β)) (k : String) (v : β) : List (String × β) :=
  match d with
  | [] => [(k, v)]
  | (k2, v2) :: rest => if k2 = k then (k2, v) :: rest else (k2, v2) :: pySet rest k v

/-- `d.update(o)` on a copy of `d`, also the dict-splat merge. -/
def pyUpdate {β : Type} (d o : List (String × β)) : List (String × β) :=
  o.foldl (fun acc kv => pySet acc kv.1 kv.2) d

/-- `dict(pairs)`: repeated insertion into an empty dict. -/
def pyFromPairs {β : Type} (ps : List (String × β)) : List (String × β) :=
  pyUpdate [] ps

/-! ## Guest bridge: deno/src/tool_injection.py -/

/-- Python exception values raised by the guest bridge. -/
inductive PyErr where
  | valueError (msg : String)
  | typeError (msg : String)
  | keyError (key : String)
  | runtimeError (msg : String)
  | jsonError (msg : String)

/-- Python `str(e)` of an exception, as an f-string interpolates it
(a `KeyError` renders as the quoted key). -/
def pyErrStr : PyErr → String
  | .valueError m => m
  | .typeError m => m
  | .keyError k => "\x27" ++ k ++ "\x27"
  | .runtimeError m => m
  | .jsonError m => m

/-- Python truthiness of a JSON-compatible value. -/
def jTruthy : Json → Bool
  | .null => false
  | .bool b => b
  | .num n => n != 0
  | .str s => !s.data.isEmpty
  | .arr xs => !xs.isEmpty
  | .obj kvs => !kvs.isEmpty

/-- The mapping built by `_create_tool_call_part`:
`\x7b'tool_name': ..., 'tool_call_id': ..., 'args': ...\x7d`. -/
structure ToolCallData where
  tool_name : String
  tool_call_id : String
  args : List (String × Json)

/-- Embedding of `_create_tool_call_part` (tool_injection.py).  The
fresh `uuid.uuid4()` string is passed in as `tool_call_id`.  A
`properties` value that is not a mapping makes the Python code raise
on `next(iter(...))` / `.keys()`; that is modelled as a `typeError`
(the `ToolSchema` contract requires a mapping there). -/
def create_tool_call_part (tool_name : String) (args : List Json)
    (kwargs : List (String × Json)) (tool_schema : List (String × Json))
    (tool_call_id : String) : Except PyErr ToolCallData :=
  match pyGet tool_schema "properties" with
  | none => .error (.valueError ("Tool \x27" ++ tool_name
      ++ "\x27 schema missing \x27properties\x27 field"))
  | some properties =>
    if args.isEmpty then
      .ok ⟨tool_name, tool_call_id, kwargs⟩
    else if args.length == 1 && jTruthy properties then
      match properties, args with
      | .obj ((first_param_name, _) :: _), [first_arg] =>
        match first_arg with
        | .obj m => .ok ⟨tool_name, tool_call_id, pyUpdate m kwargs⟩
        | _ => .ok ⟨tool_name, tool_call_id, pyUpdate [(first_param_name, first_arg)] kwargs⟩
      | _, _ => .error (.typeError "properties object is not a mapping")
    else
      match properties with
      | .obj props =>
        let param_names := props.map Prod.fst
        if args.length > param_names.length then
          .error (.valueError ("Tool \x27" ++ tool_name ++ "\x27 received "
            ++ toString args.length ++ " positional args but only has "
            ++ toString param_names.length ++ " parameters"))
        else
          .ok ⟨tool_name, tool_call_id, pyUpdate (pyFromPairs (param_names.zip args)) kwargs⟩
      | _ => .error (.typeError "properties object is not a mapping")

/-- An elicitation reply as the guest bridge sees it after `to_py`:
an `action` string and a `content` mapping.  The host adapter only
ever puts strings into `content`, so values are strings. -/
structure ElicitReply where
  action : String
  content : List (String × String)

/-- Embedding of `_extract_tool_result` (tool_injection.py). -/
def extract_tool_result (elicit_result : ElicitReply) (tool_name : String) :
    Except PyErr Json :=
  if elicit_result.action = "accept" then
    match pyGet elicit_result.content "result" with
    | none => .error (.keyError "result")
    | some s =>
      match jsonParse s with
      | .ok v => .ok v
      | .error m => .error (.jsonError m)
  else if elicit_result.action = "decline" then
    .error (.runtimeError ("Tool execution failed for \x27" ++ tool_name ++ "\x27: "
      ++ ((pyGet elicit_result.content "error").getD "Unknown error")))
  else
    .error (.runtimeError ("MCP protocol error for tool \x27" ++ tool_name
      ++ "\x27: unexpected action \x27" ++ elicit_result.action ++ "\x27"))

/-- What the elicitation callback hands back to the guest: a plain
reply (no `then` attribute), or a thenable whose resolution via
`run_sync` either yields a reply or raises (message text given). -/
inductive ChannelValue where
  | direct (r : ElicitReply)
  | thenable (res : Except String ElicitReply)

/-- One call of the elicitation callback: it returns a value or raises. -/
inductive CallbackOutcome where
  | ret (v : ChannelValue)
  | raised (e : PyErr)

/-- Embedding of `_handle_elicitation_result` (tool_injection.py):
direct results are decoded in place; thenables are resolved by a
nested `run_sync` turn whose failures (including decode failures of
the resolved reply) are wrapped in a `RuntimeError` naming the tool. -/
def handle_elicitation_result (result : ChannelValue) (tool_name : String) :
    Except PyErr Json :=
  match result with
  | .direct r => extract_tool_result r tool_name
  | .thenable (.ok r) =>
    match extract_tool_result r tool_name with
    | .ok v => .ok v
    | .error e => .error (.runtimeError ("Error resolving async result for tool \x27"
        ++ tool_name ++ "\x27: " ++ pyErrStr e))
  | .thenable (.error m) =>
    .error (.runtimeError ("Error resolving async result for tool \x27"
      ++ tool_name ++ "\x27: " ++ m))

/-- JSON shape of `json.dumps(tool_call_data)`. -/
def toolCallJson (t : ToolCallData) : Json :=
  .obj [("tool_name", .str t.tool_name), ("tool_call_id", .str t.tool_call_id),
    ("args", .obj t.args)]

/-- Embedding of the closure installed by `_create_tool_function`
(tool_injection.py): marshal the call (outside the try block, so
marshalling errors propagate as raised), serialize it, submit it on
the elicitation channel, decode the reply; any exception from the
submit/await/decode step is re-raised as a `RuntimeError` naming the
tool and carrying the cause text. -/
def tool_function (callback : String → CallbackOutcome) (tool_name : String)
    (tool_schema : List (String × Json)) (tool_call_id : String)
    (args : List Json) (kwargs : List (String × Json)) : Except PyErr Json :=
  match create_tool_call_part tool_name args kwargs tool_schema tool_call_id with
  | .error e => .error e
  | .ok tool_call_data =>
    let elicitation_message := jsonDumps (toolCallJson tool_call_data)
    let body : Except PyErr Json :=
      match callback elicitation_message with
      | .raised e => .error e
      | .ret v => handle_elicitation_result v tool_name
    match body with
    | .ok v => .ok v
    | .error e => .error (.runtimeError ("Error calling tool \x27" ++ tool_name
        ++ "\x27: " ++ pyErrStr e))

/-- A binding in the guest globals: a pre-existing guest value, or an
installed tool closure (identified by the tool name and schema the
closure captures). -/
inductive GVal where
  | guest (v : Json)
  | toolFn (tool_name : String) (schema : List (String × Json))

/-- `tool_name.replace('-', '_')`. -/
def pythonName (tool_name : String) : String :=
  String.mk (tool_name.data.map (fun c => if c = '-' then '_' else c))

/-- The per-tool loop of `inject_tool_functions`: skip names already
bound, reject missing or falsy schemas, install the closure. -/
def injectLoop : List (String × GVal) → List String →
    List (String × List (String × Json)) → Except PyErr (List (String × GVal))
  | g, [], _ => .ok g
  | g, tool_name :: rest, tool_schemas =>
    if (pyGet g (pythonName tool_name)).isSome then injectLoop g rest tool_schemas
    else
      match pyGet tool_schemas tool_name with
      | none => .error (.valueError ("Schema missing for tool \x27" ++ tool_name
          ++ "\x27 - cannot inject without schema"))
      | some tool_schema =>
        if tool_schema.isEmpty then
          .error (.valueError ("Schema missing for tool \x27" ++ tool_name
            ++ "\x27 - cannot inject without schema"))
        else
          injectLoop (pySet g (pythonName tool_name) (.toolFn tool_name tool_schema))
            rest tool_schemas

/-- Embedding of `inject_tool_functions` (tool_injection.py).  The
`has_callback` flag models `elicitation_callback is not None`; the
`tool_schemas` argument models the optional parameter (`none` =
Python `None`, an empty mapping is falsy just like `None` is).  An
error return models the Python exception propagating; the claims
below concern the untouched and the fully successful runs. -/
def inject_tool_functions (globals_dict : List (String × GVal))
    (available_tools : List String) (has_callback : Bool)
    (tool_schemas : Option (List (String × List (String × Json)))) :
    Except PyErr (List (String × GVal)) :=
  if available_tools.isEmpty || !has_callback then .ok globals_dict
  else
    match tool_schemas with
    | none => .error (.valueError "tool_schemas is required for tool injection")
    | some schemas =>
      if schemas.isEmpty then
        .error (.valueError "tool_schemas is required for tool injection")
      else injectLoop globals_dict available_tools schemas

/-! ## Host adapter: ext/pydantic_ai.py

The adapter depends on external pydantic-ai machinery: the toolset
registry (`toolset.get_tools`, projected to each tool's
`parameters_json_schema`), pydantic validation of the incoming data
against `ToolCallPart`, and `ToolManager.handle_call`.  These are
oracles in a `HostEnv`; the adapter's own control flow (the
try/except state machine) is embedded faithfully. -/

/-- Outcome of host-side tool execution: a JSON-encodable result, a
`ToolRetryError` (whose `tool_retry` part carries tool name, content
and call id), a `ModelRetry`, or any other exception. -/
inductive ExecOutcome where
  | ok (result : Json)
  | toolRetry (tool_name : String) (message : Json) (tool_call_id : String)
  | modelRetry (msg : String)
  | exc (msg : String)

/-- A tool call that passed `TypeAdapter(ToolCallPart).validate_python`. -/
structure ValidatedCall where
  tool_name : String
  tool_call_id : String
  args : List (String × Json)

/-- The external pydantic-ai collaborators of one adapter instance. -/
structure HostEnv where
  getTools : Except String (List (String × Json))
  validateCall : Json → Except String ValidatedCall
  execute : ValidatedCall → ExecOutcome

/-- `data.get('action') == TOOL_DISCOVERY_ACTION`. -/
def isDiscovery (kvs : List (String × Json)) : Bool :=
  match pyGet kvs "action" with
  | some (.str a) => a = "discover_tools"
  | _ => false

/-- Python type name of a value, used in the modelled
`AttributeError` text for non-dict messages. -/
def pyTypeName : Json → String
  | .null => "NoneType"
  | .bool _ => "bool"
  | .num _ => "int"
  | .str _ => "str"
  | .arr _ => "list"
  | .obj _ => "dict"

/-- Execution path of the adapter: validate the parsed message as a
tool call, execute it, and map every outcome to Accept or Decline
exactly as the except-clauses of `elicitation_callback` do. -/
def runToolExec (env : HostEnv) (data : Json) : ElicitReply :=
  match env.validateCall data with
  | .error m => ⟨"decline", [("error", "Invalid tool call: " ++ m)]⟩
  | .ok call =>
    match env.execute call with
    | .ok result => ⟨"accept", [("result", jsonDumps result)]⟩
    | .toolRetry tn msg id =>
      ⟨"decline", [("retry", jsonDumps (.obj [("error", .str "Tool retry needed"),
        ("tool_name", .str tn), ("message", msg), ("tool_call_id", .str id)]))]⟩
    | .modelRetry m => ⟨"decline", [("error", "Model retry failed: " ++ m)]⟩
    | .exc m => ⟨"decline", [("error", "Unexpected error: " ++ m)]⟩

/-- Embedding of the host adapter `elicitation_callback`
(ext/pydantic_ai.py): parse the message (malformed JSON declines);
answer discovery requests from the registry snapshot; otherwise
validate and execute; a non-dict message raises `AttributeError` on
`.get`, caught by the outer handler into a Decline. -/
def elicitation_callback (env : HostEnv) (message : String) : ElicitReply :=
  match jsonParse message with
  | .error m => ⟨"decline", [("error", "Invalid JSON: " ++ m)]⟩
  | .ok data =>
    match data with
    | .obj kvs =>
      if isDiscovery kvs then
        match env.getTools with
        | .ok tools =>
          ⟨"accept", [("data", jsonDumps (.obj
            [("tool_names", .arr (tools.map (fun t => .str t.1))),
             ("tool_schemas", .obj tools)]))]⟩
        | .error m => ⟨"decline", [("error", "Tool discovery failed: " ++ m)]⟩
      else runToolExec env data
    | other =>
      ⟨"decline", [("error", "Unexpected error: \x27" ++ pyTypeName other
        ++ "\x27 object has no attribute \x27get\x27")]⟩

/-! ## Dictionary lemmas -/

theorem pyGet_pySet {α : Type} (d : List (String × α)) (k k2 : String) (v : α) :
    pyGet (pySet d k v) k2 = if k = k2 then some v else pyGet d k2 := by
  induction d with
  | nil =>
    by_cases h : k = k2 <;> simp [pySet, pyGet, h]
  | cons kv rest ih =>
    obtain ⟨k3, v3⟩ := kv
    by_cases h : k3 = k
    · subst h
      by_cases h2 : k3 = k2 <;> simp [pySet, pyGet, h2]
    · by_cases h2 : k3 = k2
      · subst h2
        have hne : ¬k = k3 := fun he => h he.symm
        simp [pySet, pyGet, h, hne]
      · simp [pySet, pyGet, h, h2, ih]

theorem pyGet_none_of_not_mem {α : Type} {o : List (String × α)} {k : String}
    (h : k ∉ o.map Prod.fst) : pyGet o k = none := by
  induction o with
  | nil => rfl
  | cons kv rest ih =>
    obtain ⟨k1, v1⟩ := kv
    simp only [List.map_cons, List.mem_cons, not_or] at h
    simp [pyGet, show ¬k1 = k from fun he => h.1 he.symm, ih h.2]

theorem pyGet_pyUpdate_none {α : Type} (o : List (String × α)) (k : String) :
    ∀ d : List (String × α), pyGet o k = none →
    pyGet (pyUpdate d o) k = pyGet d k := by
  induction o with
  | nil => intro d _; rfl
  | cons kv rest ih =>
    intro d h
    obtain ⟨k1, v1⟩ := kv
    by_cases hk : k1 = k
    · simp [pyGet, hk] at h
    · have h2 : pyGet rest k = none := by simpa [pyGet, hk] using h
      have hstep : pyUpdate d ((k1, v1) :: rest) = pyUpdate (pySet d k1 v1) rest := rfl
      rw [hstep, ih _ h2, pyGet_pySet]
      simp [hk]

theorem pyGet_pyUpdate_some {α : Type} (o : List (String × α)) (k : String) (v : α) :
    ∀ d : List (String × α), (o.map Prod.fst).Nodup → pyGet o k = some v →
    pyGet (pyUpdate d o) k = some v := by
  induction o with
  | nil => intro d _ h; simp [pyGet] at h
  | cons kv rest ih =>
    intro d hnd h
    obtain ⟨k1, v1⟩ := kv
    have hstep : pyUpdate d ((k1, v1) :: rest) = pyUpdate (pySet d k1 v1) rest := rfl
    simp only [List.map_cons, List.nodup_cons] at hnd
    by_cases hk : k1 = k
    · subst hk
      have hv : v1 = v := by simpa [pyGet] using h
      have hrest : pyGet rest k1 = none := pyGet_none_of_not_mem hnd.1
      rw [hstep, pyGet_pyUpdate_none rest _ _ hrest, pyGet_pySet]
      simp [hv]
    · have h2 : pyGet rest k = some v := by simpa [pyGet, hk] using h
      rw [hstep]
      exact ih _ hnd.2 h2

theorem pyGet_pyFromPairs {α : Type} (ps : List (String × α)) (k : String)
    (hnd : (ps.map Prod.fst).Nodup) : pyGet (pyFromPairs ps) k = pyGet ps k := by
  cases h : pyGet ps k with
  | some v => exact pyGet_pyUpdate_some ps k v [] hnd h
  | none =>
    rw [pyFromPairs, pyGet_pyUpdate_none ps k [] h]
    rfl

theorem pyGet_zip {α : Type} (names : List String) :
    ∀ (args : List α) (i : Nat) (hi : i < args.length) (hn : i < names.length),
    names.Nodup → args.length ≤ names.length →
    pyGet (names.zip args) (names.get ⟨i, hn⟩) = some (args.get ⟨i, hi⟩) := by
  induction names with
  | nil =>
    intro args i hi hn _ _
    simp at hn
  | cons n ns ih =>
    intro args i hi hn hnd hle
    cases args with
    | nil => simp at hi
    | cons a as =>
      simp only [List.nodup_cons] at hnd
      cases i with
      | zero => simp [pyGet]
      | succ i =>
        have hn2 : i < ns.length := by simpa using hn
        have hi2 : i < as.length := by simpa using hi
        have hmem : ns.get ⟨i, hn2⟩ ∈ ns := List.get_mem ns i hn2
        have hne : ¬n = ns.get ⟨i, hn2⟩ := fun he => hnd.1 (he ▸ hmem)
        simp only [List.zip_cons_cons, List.get_cons_succ, pyGet, if_neg hne]
        exact ih as i hi2 hn2 hnd.2 (by simpa using hle)

/-! ## Substring test (for statements about failure-message content) -/

/-- Does the first list start the second? -/
def leadsWith : List Char → List Char → Bool
  | [], _ => true
  | x :: xs, y :: ys => x = y && leadsWith xs ys
  | _, [] => false

/-- Does the first list occur contiguously inside the second? -/
def occursIn (needle : List Char) : List Char → Bool
  | [] => leadsWith needle []
  | b :: bs => leadsWith needle (b :: bs) || occursIn needle bs

/-- Is `sub` a contiguous substring of `s`? -/
def strContains (s sub : String) : Bool := occursIn sub.data s.data

/-! ## Claims -/

/-- C1 (counterexample): the host declines tool `send-email` with a
structured retry payload (content under the `retry` key only); the
guest bridge raises a failure whose text contains the tool name but
not the retry message, because `_extract_tool_result` reads only
`content.get('error', 'Unknown error')`. -/
theorem decline_retry_message_not_embedded :
    elicitation_callback
      ⟨.ok [], fun _ => .ok ⟨"send-email", "abc123", []⟩,
        fun _ => .toolRetry "send-email" (.str "add a subject line") "abc123"⟩
      "\x7b\"tool_name\": \"send-email\"\x7d"
      = ⟨"decline", [("retry", jsonDumps (.obj [("error", .str "Tool retry needed"),
          ("tool_name", .str "send-email"), ("message", .str "add a subject line"),
          ("tool_call_id", .str "abc123")]))]⟩
    ∧ extract_tool_result
        ⟨"decline", [("retry", jsonDumps (.obj [("error", .str "Tool retry needed"),
          ("tool_name", .str "send-email"), ("message", .str "add a subject line"),
          ("tool_call_id", .str "abc123")]))]⟩ "send-email"
      = .error (.runtimeError
          "Tool execution failed for \x27send-email\x27: Unknown error")
    ∧ strContains "Tool execution failed for \x27send-email\x27: Unknown error"
        "send-email" = true
    ∧ strContains "Tool execution failed for \x27send-email\x27: Unknown error"
        "add a subject line" = false :=
  ⟨rfl, rfl, rfl, rfl⟩

/-- C1 (amended): for every Decline reply, the guest bridge raises a
RuntimeError whose message embeds the tool name and the content's
`error` entry, falling back to the fixed text "Unknown error" when
there is no `error` key (as with structured retry payloads). -/
theorem decline_failure_embeds_error_content (r : ElicitReply) (tool_name : String)
    (hdec : r.action = "decline") :
    extract_tool_result r tool_name = .error (.runtimeError
      ("Tool execution failed for \x27" ++ tool_name ++ "\x27: "
        ++ ((pyGet r.content "error").getD "Unknown error")))
    ∧ ∀ v, extract_tool_result r tool_name ≠ .ok v := by
  unfold extract_tool_result
  rw [hdec]
  rw [if_neg (by decide), if_pos rfl]
  exact ⟨rfl, fun v h => by cases h⟩

/-- C1 (witness): the amended statement applied to the concrete
retry-decline reply. -/
theorem decline_failure_embeds_error_content_witness :
    extract_tool_result ⟨"decline", [("retry", "ignored")]⟩ "send-email"
      = .error (.runtimeError
        ("Tool execution failed for \x27" ++ "send-email" ++ "\x27: "
          ++ ((pyGet [("retry", "ignored")] "error").getD "Unknown error")))
    ∧ ∀ v, extract_tool_result ⟨"decline", [("retry", "ignored")]⟩ "send-email" ≠ .ok v :=
  decline_failure_embeds_error_content ⟨"decline", [("retry", "ignored")]⟩ "send-email" rfl

/-- C9: a reply whose action is neither accept nor decline makes the
guest bridge raise a RuntimeError naming the tool and the unexpected
action value, and the call never returns a value to guest code. -/
theorem unexpected_action_protocol_error (r : ElicitReply) (tool_name : String)
    (h1 : r.action ≠ "accept") (h2 : r.action ≠ "decline") :
    extract_tool_result r tool_name = .error (.runtimeError
      ("MCP protocol error for tool \x27" ++ tool_name ++ "\x27: unexpected action \x27"
        ++ r.action ++ "\x27"))
    ∧ ∀ v, extract_tool_result r tool_name ≠ .ok v := by
  unfold extract_tool_result
  rw [if_neg h1, if_neg h2]
  exact ⟨rfl, fun v h => by cases h⟩

/-- C9 (witness): the MCP `cancel` action is such a third reply kind. -/
theorem unexpected_action_protocol_error_witness :
    extract_tool_result ⟨"cancel", []⟩ "get-weather"
      = .error (.runtimeError
        ("MCP protocol error for tool \x27" ++ "get-weather" ++ "\x27: unexpected action \x27"
          ++ "cancel" ++ "\x27"))
    ∧ ∀ v, extract_tool_result ⟨"cancel", []⟩ "get-weather" ≠ .ok v :=
  unexpected_action_protocol_error ⟨"cancel", []⟩ "get-weather" (by decide) (by decide)

/-- C7: once marshalling has produced a tool call, every failure of
the submit/await/decode step surfaces as a RuntimeError whose message
starts with the fixed failure-translation prefix naming the tool and
ends with a description of the underlying cause; the internal
exception constructor never reaches the caller. -/
theorem tool_function_failure_translation (callback : String → CallbackOutcome)
    (tool_name : String) (tool_schema : List (String × Json)) (tool_call_id : String)
    (args : List Json) (kwargs : List (String × Json)) (part : ToolCallData)
    (hok : create_tool_call_part tool_name args kwargs tool_schema tool_call_id = .ok part) :
    (∃ v, tool_function callback tool_name tool_schema tool_call_id args kwargs = .ok v) ∨
    (∃ cause, tool_function callback tool_name tool_schema tool_call_id args kwargs
      = .error (.runtimeError ("Error calling tool \x27" ++ tool_name ++ "\x27: " ++ cause))) := by
  cases hcb : callback (jsonDumps (toolCallJson part)) with
  | raised e =>
    right
    exact ⟨pyErrStr e, by simp only [tool_function, hok, hcb]⟩
  | ret v =>
    cases hres : handle_elicitation_result v tool_name with
    | ok w =>
      left
      exact ⟨w, by simp only [tool_function, hok, hcb, hres]⟩
    | error e =>
      right
      exact ⟨pyErrStr e, by simp only [tool_function, hok, hcb, hres]⟩

/-- C7 (witness): a channel that raises a transport error is
translated into the RuntimeError shape. -/
theorem tool_function_failure_translation_witness :
    (∃ v, tool_function (fun _ => .raised (.typeError "socket closed")) "get-weather"
      [("properties", Json.obj [("city", Json.obj [])])] "id-1" [] [] = .ok v) ∨
    (∃ cause, tool_function (fun _ => .raised (.typeError "socket closed")) "get-weather"
      [("properties", Json.obj [("city", Json.obj [])])] "id-1" [] []
      = .error (.runtimeError ("Error calling tool \x27" ++ "get-weather" ++ "\x27: " ++ cause))) :=
  tool_function_failure_translation (fun _ => .raised (.typeError "socket closed"))
    "get-weather" [("properties", Json.obj [("city", Json.obj [])])] "id-1" [] []
    ⟨"get-weather", "id-1", []⟩ rfl

/-- C4: for every incoming elicitation message and every behaviour of
the external registry, validator and executor, the host adapter
returns exactly one reply whose action is accept or decline; no
branch escapes the adapter. -/
theorem host_adapter_total_accept_or_decline (env : HostEnv) (message : String) :
    (elicitation_callback env message).action = "accept"
    ∨ (elicitation_callback env message).action = "decline" := by
  unfold elicitation_callback
  cases h : jsonParse message with
  | error m => right; rfl
  | ok data =>
    cases data with
    | null => right; rfl
    | bool b => right; rfl
    | num n => right; rfl
    | str s => right; rfl
    | arr xs => right; rfl
    | obj kvs =>
      simp only []
      by_cases hd : isDiscovery kvs = true
      · rw [if_pos hd]
        cases env.getTools with
        | ok tools => left; rfl
        | error m => right; rfl
      · rw [if_neg hd]
        unfold runToolExec
        cases env.validateCall (Json.obj kvs) with
        | error m => right; rfl
        | ok call =>
          simp only []
          cases env.execute call with
          | ok r => left; rfl
          | toolRetry a b c => right; rfl
          | modelRetry m => right; rfl
          | exc m => right; rfl

theorem pyGet_mem {α : Type} {d : List (String × α)} {key : String} {val : α}
    (h : pyGet d key = some val) : (key, val) ∈ d := by
  induction d with
  | nil => simp [pyGet] at h
  | cons kv rest ih =>
    obtain ⟨k1, v1⟩ := kv
    by_cases hk : k1 = key
    · subst hk
      have hv : v1 = val := by simpa [pyGet] using h
      rw [← hv]
      exact List.mem_cons_self _ _
    · have h2 : pyGet rest key = some val := by simpa [pyGet, hk] using h
      exact List.mem_cons_of_mem _ (ih h2)

theorem mem_pyGet {α : Type} {d : List (String × α)} (hnd : (d.map Prod.fst).Nodup)
    {key : String} {val : α} (h : (key, val) ∈ d) : pyGet d key = some val := by
  induction d with
  | nil => cases h
  | cons kv rest ih =>
    obtain ⟨k1, v1⟩ := kv
    simp only [List.map_cons, List.nodup_cons] at hnd
    rcases List.mem_cons.mp h with he | hm
    · obtain ⟨h1, h2⟩ := Prod.mk.injEq .. ▸ he
      subst h1
      subst h2
      simp [pyGet]
    · have hk : ¬k1 = key := by
        intro heq
        subst heq
        exact hnd.1 (List.mem_map_of_mem Prod.fst hm)
      simp [pyGet, hk, ih hnd.2 hm]

/-- C6: a discovery request against any registry snapshot T is
answered with an Accept whose `data` payload decodes to exactly
`\x7btool_names: the names of T, tool_schemas: T\x7d`; the names list
contains exactly the registered names and the schema map is keyed by
them, each mapping to the registered schema. -/
theorem discovery_reports_registry (env : HostEnv) (message : String)
    (T : List (String × Json)) (kvs : List (String × Json))
    (hT : env.getTools = .ok T)
    (hmsg : jsonParse message = .ok (.obj kvs))
    (hdisc : isDiscovery kvs = true) :
    (elicitation_callback env message).action = "accept"
    ∧ pyGet (elicitation_callback env message).content "data"
        = some (jsonDumps (.obj [("tool_names", .arr (T.map (fun t => .str t.1))),
            ("tool_schemas", .obj T)]))
    ∧ jsonParse (jsonDumps (.obj [("tool_names", .arr (T.map (fun t => .str t.1))),
        ("tool_schemas", .obj T)]))
        = .ok (.obj [("tool_names", .arr (T.map (fun t => .str t.1))),
            ("tool_schemas", .obj T)])
    ∧ (∀ n, Json.str n ∈ T.map (fun t => Json.str t.1) ↔ ∃ s, (n, s) ∈ T)
    ∧ ((T.map Prod.fst).Nodup → ∀ n s, ((n, s) ∈ T ↔ pyGet T n = some s)) := by
  have hcb : elicitation_callback env message
      = ⟨"accept", [("data", jsonDumps (.obj [("tool_names", .arr (T.map (fun t => .str t.1))),
          ("tool_schemas", .obj T)]))]⟩ := by
    unfold elicitation_callback
    rw [hmsg]
    simp only []
    rw [if_pos hdisc, hT]
  refine ⟨by rw [hcb], by rw [hcb]; simp [pyGet], jsonParse_jsonDumps _, ?_, ?_⟩
  · intro n
    constructor
    · intro hmem
      obtain ⟨t, htm, hte⟩ := List.mem_map.mp hmem
      refine ⟨t.2, ?_⟩
      have h1 : t.1 = n := by
        injection hte
      rw [← h1]
      exact htm
    · rintro ⟨s, hmem⟩
      exact List.mem_map.mpr ⟨(n, s), hmem, rfl⟩
  · intro hnd n s
    exact ⟨fun h => mem_pyGet hnd h, fun h => pyGet_mem h⟩

/-- C6 (witness): discovery over a one-tool registry. -/
theorem discovery_reports_registry_witness :
    (elicitation_callback
      ⟨.ok [("get-weather", Json.obj [("city", Json.obj [])])],
        fun _ => .error "not a tool call", fun _ => .exc "unused"⟩
      "\x7b\"action\": \"discover_tools\"\x7d").action = "accept"
    ∧ pyGet (elicitation_callback
        ⟨.ok [("get-weather", Json.obj [("city", Json.obj [])])],
          fun _ => .error "not a tool call", fun _ => .exc "unused"⟩
        "\x7b\"action\": \"discover_tools\"\x7d").content "data"
      = some (jsonDumps (.obj
          [("tool_names", .arr ([("get-weather", Json.obj [("city", Json.obj [])])].map
              (fun t => .str t.1))),
           ("tool_schemas", .obj [("get-weather", Json.obj [("city", Json.obj [])])])]))
    ∧ jsonParse (jsonDumps (.obj
        [("tool_names", .arr ([("get-weather", Json.obj [("city", Json.obj [])])].map
            (fun t => .str t.1))),
         ("tool_schemas", .obj [("get-weather", Json.obj [("city", Json.obj [])])])]))
      = .ok (.obj
          [("tool_names", .arr ([("get-weather", Json.obj [("city", Json.obj [])])].map
              (fun t => .str t.1))),
           ("tool_schemas", .obj [("get-weather", Json.obj [("city", Json.obj [])])])])
    ∧ (∀ n, Json.str n ∈ [("get-weather", Json.obj [("city", Json.obj [])])].map
          (fun t => Json.str t.1)
        ↔ ∃ s, (n, s) ∈ [("get-weather", Json.obj [("city", Json.obj [])])])
    ∧ (([("get-weather", Json.obj [("city", Json.obj [])])].map Prod.fst).Nodup →
        ∀ n s, ((n, s) ∈ [("get-weather", Json.obj [("city", Json.obj [])])]
          ↔ pyGet [("get-weather", Json.obj [("city", Json.obj [])])] n = some s)) :=
  discovery_reports_registry
    ⟨.ok [("get-weather", Json.obj [("city", Json.obj [])])],
      fun _ => .error "not a tool call", fun _ => .exc "unused"⟩
    "\x7b\"action\": \"discover_tools\"\x7d"
    [("get-weather", Json.obj [("city", Json.obj [])])]
    [("action", Json.str "discover_tools")] rfl rfl rfl

/-- C5: for every successful tool execution, the Accept reply content
carries `result` as a string-encoded JSON value, and the guest bridge,
decoding it one level deeper, hands guest code exactly the value the
host computed. -/
theorem success_result_roundtrip (env : HostEnv) (message : String)
    (kvs : List (String × Json)) (call : ValidatedCall) (v : Json) (tool_name : String)
    (hmsg : jsonParse message = .ok (.obj kvs))
    (hnd : isDiscovery kvs = false)
    (hval : env.validateCall (.obj kvs) = .ok call)
    (hexec : env.execute call = .ok v) :
    (elicitation_callback env message).action = "accept"
    ∧ pyGet (elicitation_callback env message).content "result" = some (jsonDumps v)
    ∧ extract_tool_result (elicitation_callback env message) tool_name = .ok v := by
  have hcb : elicitation_callback env message = ⟨"accept", [("result", jsonDumps v)]⟩ := by
    unfold elicitation_callback
    rw [hmsg]
    simp only []
    rw [if_neg (by simp [hnd])]
    unfold runToolExec
    rw [hval]
    simp only []
    rw [hexec]
  refine ⟨by rw [hcb], by rw [hcb]; simp [pyGet], ?_⟩
  rw [hcb]
  simp [extract_tool_result, pyGet, jsonParse_jsonDumps]

/-- C5 (witness): a concrete execution returning the string "sunny". -/
theorem success_result_roundtrip_witness :
    (elicitation_callback
      ⟨.ok [], fun _ => .ok ⟨"get-weather", "id-1", []⟩, fun _ => .ok (Json.str "sunny")⟩
      "\x7b\"tool_name\": \"get-weather\"\x7d").action = "accept"
    ∧ pyGet (elicitation_callback
        ⟨.ok [], fun _ => .ok ⟨"get-weather", "id-1", []⟩, fun _ => .ok (Json.str "sunny")⟩
        "\x7b\"tool_name\": \"get-weather\"\x7d").content "result"
      = some (jsonDumps (Json.str "sunny"))
    ∧ extract_tool_result
        (elicitation_callback
          ⟨.ok [], fun _ => .ok ⟨"get-weather", "id-1", []⟩, fun _ => .ok (Json.str "sunny")⟩
          "\x7b\"tool_name\": \"get-weather\"\x7d") "get-weather"
      = .ok (Json.str "sunny") :=
  success_result_roundtrip
    ⟨.ok [], fun _ => .ok ⟨"get-weather", "id-1", []⟩, fun _ => .ok (Json.str "sunny")⟩
    "\x7b\"tool_name\": \"get-weather\"\x7d"
    [("tool_name", Json.str "get-weather")] ⟨"get-weather", "id-1", []⟩
    (Json.str "sunny") "get-weather" rfl rfl rfl rfl

theorem injectLoop_spec (tools : List String) :
    ∀ (g g2 : List (String × GVal)) (schemas : List (String × List (String × Json))),
    injectLoop g tools schemas = .ok g2 →
    (∀ k v, pyGet g k = some v → pyGet g2 k = some v)
    ∧ (∀ tn, tn ∈ tools → (pyGet g2 (pythonName tn)).isSome)
    ∧ injectLoop g2 tools schemas = .ok g2 := by
  induction tools with
  | nil =>
    intro g g2 schemas h
    have hg : g = g2 := by simpa [injectLoop] using h
    subst hg
    exact ⟨fun k v hv => hv, fun tn htn => absurd htn (List.not_mem_nil tn),
      by simp [injectLoop]⟩
  | cons tn rest ih =>
    intro g g2 schemas h
    by_cases hb : (pyGet g (pythonName tn)).isSome
    · have h2 : injectLoop g rest schemas = .ok g2 := by
        simpa [injectLoop, hb] using h
      obtain ⟨hpres, hall, hid⟩ := ih g g2 schemas h2
      have hb2 : (pyGet g2 (pythonName tn)).isSome := by
        obtain ⟨v, hv⟩ := Option.isSome_iff_exists.mp hb
        exact Option.isSome_iff_exists.mpr ⟨v, hpres _ v hv⟩
      refine ⟨hpres, ?_, ?_⟩
      · intro tn2 htn2
        rcases List.mem_cons.mp htn2 with he | hm
        · subst he
          exact hb2
        · exact hall tn2 hm
      · simp [injectLoop, hb2, hid]
    · cases hs : pyGet schemas tn with
      | none => simp [injectLoop, hb, hs] at h
      | some sch =>
        by_cases hemp : sch.isEmpty
        · simp [injectLoop, hb, hs, hemp] at h
        · have h2 : injectLoop (pySet g (pythonName tn) (.toolFn tn sch)) rest schemas
              = .ok g2 := by
            simpa [injectLoop, hb, hs, hemp] using h
          obtain ⟨hpres, hall, hid⟩ := ih _ g2 schemas h2
          have hget : pyGet (pySet g (pythonName tn) (.toolFn tn sch)) (pythonName tn)
              = some (.toolFn tn sch) := by
            rw [pyGet_pySet]
            simp
          have hgets : ∀ k v, pyGet g k = some v →
              pyGet (pySet g (pythonName tn) (.toolFn tn sch)) k = some v := by
            intro k v hv
            rw [pyGet_pySet]
            by_cases hkk : pythonName tn = k
            · subst hkk
              exact absurd (Option.isSome_iff_exists.mpr ⟨v, hv⟩) hb
            · rw [if_neg hkk]
              exact hv
          have hb2 : (pyGet g2 (pythonName tn)).isSome :=
            Option.isSome_iff_exists.mpr ⟨_, hpres _ _ hget⟩
          refine ⟨fun k v hv => hpres k v (hgets k v hv), ?_, ?_⟩
          · intro tn2 htn2
            rcases List.mem_cons.mp htn2 with he | hm
            · subst he
              exact hb2
            · exact hall tn2 hm
          · simp [injectLoop, hb2, hid]

/-- C8: successful injection never clobbers an existing guest binding
(every existing binding keeps its value), and injecting the same tool
list a second time returns the globals unchanged. -/
theorem inject_idempotent_no_clobber (g g2 : List (String × GVal))
    (tools : List String) (has_callback : Bool)
    (schemas : Option (List (String × List (String × Json))))
    (h : inject_tool_functions g tools has_callback schemas = .ok g2) :
    (∀ k v, pyGet g k = some v → pyGet g2 k = some v)
    ∧ inject_tool_functions g2 tools has_callback schemas = .ok g2 := by
  by_cases hpre : (tools.isEmpty || !has_callback) = true
  · have hg : g = g2 := by simpa [inject_tool_functions, hpre] using h
    subst hg
    exact ⟨fun k v hv => hv, by simp [inject_tool_functions, hpre]⟩
  · cases schemas with
    | none => simp [inject_tool_functions, hpre] at h
    | some s =>
      by_cases hemp : s.isEmpty
      · simp [inject_tool_functions, hpre, hemp] at h
      · have h2 : injectLoop g tools s = .ok g2 := by
          simpa [inject_tool_functions, hpre, hemp] using h
        obtain ⟨hpres, hall, hid⟩ := injectLoop_spec tools g g2 s h2
        exact ⟨hpres, by simp [inject_tool_functions, hpre, hemp, hid]⟩

/-- C8 (witness): injecting one tool over a guest binding, twice. -/
theorem inject_idempotent_no_clobber_witness :
    (∀ k v, pyGet [("existing", GVal.guest Json.null)] k = some v →
      pyGet [("existing", GVal.guest Json.null),
        ("send_email", GVal.toolFn "send-email" [("properties", Json.obj [])])] k = some v)
    ∧ inject_tool_functions
        [("existing", GVal.guest Json.null),
          ("send_email", GVal.toolFn "send-email" [("properties", Json.obj [])])]
        ["send-email"] true (some [("send-email", [("properties", Json.obj [])])])
      = .ok [("existing", GVal.guest Json.null),
          ("send_email", GVal.toolFn "send-email" [("properties", Json.obj [])])] :=
  inject_idempotent_no_clobber [("existing", GVal.guest Json.null)]
    [("existing", GVal.guest Json.null),
      ("send_email", GVal.toolFn "send-email" [("properties", Json.obj [])])]
    ["send-email"] true (some [("send-email", [("properties", Json.obj [])])]) rfl

/-- C10: with an empty tool list or no configured callback the
injection returns silently with the globals untouched, whatever the
schema argument is (no schema validation happens); only with a
non-empty list and a callback does a missing or falsy `tool_schemas`
raise the configuration error. -/
theorem inject_early_return_frame (g : List (String × GVal)) (tools : List String)
    (has_callback : Bool) (schemas : Option (List (String × List (String × Json)))) :
    ((tools = [] ∨ has_callback = false) →
      inject_tool_functions g tools has_callback schemas = .ok g)
    ∧ (tools ≠ [] → has_callback = true → (schemas = none ∨ schemas = some []) →
      inject_tool_functions g tools has_callback schemas
        = .error (.valueError "tool_schemas is required for tool injection")) := by
  constructor
  · rintro (h | h)
    · subst h
      simp [inject_tool_functions]
    · subst h
      simp [inject_tool_functions]
  · intro h1 h2 h3
    subst h2
    have hne : tools.isEmpty = false := by
      cases tools with
      | nil => exact absurd rfl h1
      | cons a t => rfl
    rcases h3 with h3 | h3 <;> subst h3 <;> simp [inject_tool_functions, hne]

/-- C10 (witness): both halves at concrete inputs. -/
theorem inject_early_return_frame_witness :
    inject_tool_functions [("x", GVal.guest Json.null)] [] true none
      = .ok [("x", GVal.guest Json.null)]
    ∧ inject_tool_functions [] ["send-email"] true none
      = .error (.valueError "tool_schemas is required for tool injection") :=
  ⟨(inject_early_return_frame [("x", GVal.guest Json.null)] [] true none).1 (Or.inl rfl),
   (inject_early_return_frame [] ["send-email"] true none).2 (by simp) rfl (Or.inl rfl)⟩

theorem zip_keys_sublist {α β : Type} (l1 : List α) :
    ∀ l2 : List β, ((l1.zip l2).map Prod.fst).Sublist l1 := by
  induction l1 with
  | nil => intro l2; simp
  | cons a l1 ih =>
    intro l2
    cases l2 with
    | nil => simp
    | cons b l2 =>
      simp only [List.zip_cons_cons, List.map_cons]
      exact List.Sublist.cons₂ a (ih l2)

/-- C3: a call with exactly one positional argument against a schema
declaring at least one property: a mapping argument is merged with
the keyword arguments (keyword arguments winning on collision); any
other argument is bound to the first declared property name and
merged likewise. -/
theorem single_positional_binding (tool_name : String) (a : Json)
    (kwargs : List (String × Json)) (tool_schema : List (String × Json))
    (tool_call_id : String) (k0 : String) (s0 : Json) (props : List (String × Json))
    (hs : pyGet tool_schema "properties" = some (.obj ((k0, s0) :: props)))
    (hknd : (kwargs.map Prod.fst).Nodup) :
    ∃ part, create_tool_call_part tool_name [a] kwargs tool_schema tool_call_id = .ok part
      ∧ part.tool_name = tool_name ∧ part.tool_call_id = tool_call_id
      ∧ (∀ m, a = .obj m →
          (∀ k v, pyGet kwargs k = some v → pyGet part.args k = some v)
          ∧ (∀ k, pyGet kwargs k = none → pyGet part.args k = pyGet m k))
      ∧ ((∀ m, a ≠ .obj m) →
          (∀ k v, pyGet kwargs k = some v → pyGet part.args k = some v)
          ∧ (∀ k, pyGet kwargs k = none →
              pyGet part.args k = if k0 = k then some a else none)) := by
  have hwin : ∀ (base : List (String × Json)) (k : String) (v : Json),
      pyGet kwargs k = some v → pyGet (pyUpdate base kwargs) k = some v :=
    fun base k v h => pyGet_pyUpdate_some kwargs k v base hknd h
  have hmiss : ∀ (base : List (String × Json)) (k : String), pyGet kwargs k = none →
      pyGet (pyUpdate base kwargs) k = pyGet base k :=
    fun base k h => pyGet_pyUpdate_none kwargs k base h
  have hbase : ∀ k, pyGet [(k0, a)] k = if k0 = k then some a else none := by
    intro k
    by_cases hk : k0 = k <;> simp [pyGet, hk]
  cases a with
  | obj m =>
    refine ⟨⟨tool_name, tool_call_id, pyUpdate m kwargs⟩, ?_, rfl, rfl, ?_, ?_⟩
    · simp [create_tool_call_part, hs, jTruthy]
    · intro m2 hm
      injection hm with hm2
      subst hm2
      exact ⟨fun k v h => hwin m k v h, fun k h => hmiss m k h⟩
    · intro habs
      exact absurd rfl (habs m)
  | null =>
    refine ⟨⟨tool_name, tool_call_id, pyUpdate [(k0, Json.null)] kwargs⟩, ?_, rfl, rfl, ?_, ?_⟩
    · simp [create_tool_call_part, hs, jTruthy]
    · intro m2 hm
      simp at hm
    · intro _
      refine ⟨fun k v h => hwin _ k v h, fun k h => ?_⟩
      rw [hmiss _ k h]
      exact hbase k
  | bool b =>
    refine ⟨⟨tool_name, tool_call_id, pyUpdate [(k0, Json.bool b)] kwargs⟩, ?_, rfl, rfl, ?_, ?_⟩
    · simp [create_tool_call_part, hs, jTruthy]
    · intro m2 hm
      simp at hm
    · intro _
      refine ⟨fun k v h => hwin _ k v h, fun k h => ?_⟩
      rw [hmiss _ k h]
      exact hbase k
  | num n =>
    refine ⟨⟨tool_name, tool_call_id, pyUpdate [(k0, Json.num n)] kwargs⟩, ?_, rfl, rfl, ?_, ?_⟩
    · simp [create_tool_call_part, hs, jTruthy]
    · intro m2 hm
      simp at hm
    · intro _
      refine ⟨fun k v h => hwin _ k v h, fun k h => ?_⟩
      rw [hmiss _ k h]
      exact hbase k
  | str s =>
    refine ⟨⟨tool_name, tool_call_id, pyUpdate [(k0, Json.str s)] kwargs⟩, ?_, rfl, rfl, ?_, ?_⟩
    · simp [create_tool_call_part, hs, jTruthy]
    · intro m2 hm
      simp at hm
    · intro _
      refine ⟨fun k v h => hwin _ k v h, fun k h => ?_⟩
      rw [hmiss _ k h]
      exact hbase k
  | arr xs =>
    refine ⟨⟨tool_name, tool_call_id, pyUpdate [(k0, Json.arr xs)] kwargs⟩, ?_, rfl, rfl, ?_, ?_⟩
    · simp [create_tool_call_part, hs, jTruthy]
    · intro m2 hm
      simp at hm
    · intro _
      refine ⟨fun k v h => hwin _ k v h, fun k h => ?_⟩
      rw [hmiss _ k h]
      exact hbase k

/-- C3 (witness): a dict-valued positional argument with one keyword
argument, against a one-property schema. -/
theorem single_positional_binding_witness :
    ∃ part, create_tool_call_part "make-chart" [Json.obj [("a", Json.num 1)]]
        [("b", Json.num 2)] [("properties", Json.obj [("a", Json.obj [])])] "id-1"
        = .ok part
      ∧ part.tool_name = "make-chart" ∧ part.tool_call_id = "id-1"
      ∧ (∀ m, Json.obj [("a", Json.num 1)] = .obj m →
          (∀ k v, pyGet [("b", Json.num 2)] k = some v → pyGet part.args k = some v)
          ∧ (∀ k, pyGet [("b", Json.num 2)] k = none → pyGet part.args k = pyGet m k))
      ∧ ((∀ m, Json.obj [("a", Json.num 1)] ≠ .obj m) →
          (∀ k v, pyGet [("b", Json.num 2)] k = some v → pyGet part.args k = some v)
          ∧ (∀ k, pyGet [("b", Json.num 2)] k = none →
              pyGet part.args k = if "a" = k then some (Json.obj [("a", Json.num 1)]) else none)) :=
  single_positional_binding "make-chart" (Json.obj [("a", Json.num 1)])
    [("b", Json.num 2)] [("properties", Json.obj [("a", Json.obj [])])] "id-1"
    "a" (Json.obj []) [] rfl (by decide)

/-- C2: two or more positional arguments are bound to parameter names
in the schema's declared property order, with keyword arguments merged
on top (keyword arguments win); more positional arguments than
declared properties is a ValueError raised before anything is sent on
the channel (the outcome does not depend on the channel at all), never
a truncated mapping. -/
theorem multi_positional_binding (tool_name : String) (args : List Json)
    (kwargs : List (String × Json)) (props : List (String × Json))
    (tool_schema : List (String × Json)) (tool_call_id : String)
    (hs : pyGet tool_schema "properties" = some (.obj props))
    (hlen : 2 ≤ args.length)
    (hpnd : (props.map Prod.fst).Nodup)
    (hknd : (kwargs.map Prod.fst).Nodup) :
    (args.length ≤ props.length →
      ∃ part, create_tool_call_part tool_name args kwargs tool_schema tool_call_id = .ok part
        ∧ (∀ k v, pyGet kwargs k = some v → pyGet part.args k = some v)
        ∧ (∀ (i : Nat) (hi : i < args.length) (hp : i < (props.map Prod.fst).length),
            pyGet kwargs ((props.map Prod.fst).get ⟨i, hp⟩) = none →
            pyGet part.args ((props.map Prod.fst).get ⟨i, hp⟩) = some (args.get ⟨i, hi⟩)))
    ∧ (props.length < args.length →
      ∃ msg, create_tool_call_part tool_name args kwargs tool_schema tool_call_id
          = .error (.valueError msg)
        ∧ ∀ callback, tool_function callback tool_name tool_schema tool_call_id args kwargs
            = .error (.valueError msg)) := by
  have hne : args.isEmpty = false := by
    cases args with
    | nil => simp at hlen
    | cons a t => rfl
  have hbeq : (args.length == 1) = false := by
    rw [beq_eq_false_iff_ne]
    omega
  have hml : (props.map Prod.fst).length = props.length := List.length_map _ _
  constructor
  · intro hle
    have hngt : ¬args.length > (props.map Prod.fst).length := by omega
    have hcre : create_tool_call_part tool_name args kwargs tool_schema tool_call_id
        = .ok ⟨tool_name, tool_call_id,
            pyUpdate (pyFromPairs ((props.map Prod.fst).zip args)) kwargs⟩ := by
      simp [create_tool_call_part, hs, hne, hbeq, hngt]
      omega
    refine ⟨_, hcre, ?_, ?_⟩
    · exact fun k v h => pyGet_pyUpdate_some kwargs k v _ hknd h
    · intro i hi hp hnone
      have hzipnd : (((props.map Prod.fst).zip args).map Prod.fst).Nodup :=
        List.Nodup.sublist (zip_keys_sublist (props.map Prod.fst) args) hpnd
      show pyGet (pyUpdate (pyFromPairs ((props.map Prod.fst).zip args)) kwargs)
        ((props.map Prod.fst).get ⟨i, hp⟩) = some (args.get ⟨i, hi⟩)
      rw [pyGet_pyUpdate_none kwargs _ _ hnone, pyGet_pyFromPairs _ _ hzipnd]
      exact pyGet_zip (props.map Prod.fst) args i hi hp hpnd (by omega)
  · intro hgt
    have hngt : args.length > (props.map Prod.fst).length := by omega
    have hcre : create_tool_call_part tool_name args kwargs tool_schema tool_call_id
        = .error (.valueError ("Tool \x27" ++ tool_name ++ "\x27 received "
            ++ toString args.length ++ " positional args but only has "
            ++ toString (props.map Prod.fst).length ++ " parameters")) := by
      simp [create_tool_call_part, hs, hne, hbeq, hngt]
      omega
    refine ⟨_, hcre, fun callback => ?_⟩
    simp [tool_function, hcre]

/-- C2 (witness): two positional arguments against the schema
properties `["x", "y"]`, and three against the same schema. -/
theorem multi_positional_binding_witness :
    (∃ part, create_tool_call_part "plot" [Json.num 1, Json.num 2] []
        [("properties", Json.obj [("x", Json.obj []), ("y", Json.obj [])])] "id-1"
        = .ok part
      ∧ (∀ k v, pyGet ([] : List (String × Json)) k = some v → pyGet part.args k = some v)
      ∧ (∀ (i : Nat) (hi : i < ([Json.num 1, Json.num 2] : List Json).length)
          (hp : i < (([("x", Json.obj []), ("y", Json.obj [])] :
              List (String × Json)).map Prod.fst).length),
          pyGet ([] : List (String × Json))
            ((([("x", Json.obj []), ("y", Json.obj [])] :
              List (String × Json)).map Prod.fst).get ⟨i, hp⟩) = none →
          pyGet part.args
            ((([("x", Json.obj []), ("y", Json.obj [])] :
              List (String × Json)).map Prod.fst).get ⟨i, hp⟩)
            = some (([Json.num 1, Json.num 2] : List Json).get ⟨i, hi⟩)))
    ∧ (∃ msg, create_tool_call_part "plot" [Json.num 1, Json.num 2, Json.num 3] []
        [("properties", Json.obj [("x", Json.obj []), ("y", Json.obj [])])] "id-1"
        = .error (.valueError msg)
      ∧ ∀ callback, tool_function callback "plot"
          [("properties", Json.obj [("x", Json.obj []), ("y", Json.obj [])])] "id-1"
          [Json.num 1, Json.num 2, Json.num 3] []
          = .error (.valueError msg)) :=
  ⟨(multi_positional_binding "plot" [Json.num 1, Json.num 2] []
      [("x", Json.obj []), ("y", Json.obj [])]
      [("properties", Json.obj [("x", Json.obj []), ("y", Json.obj [])])] "id-1"
      rfl (by decide) (by decide) (by decide)).1 (by decide),
   (multi_positional_binding "plot" [Json.num 1, Json.num 2, Json.num 3] []
      [("x", Json.obj []), ("y", Json.obj [])]
      [("properties", Json.obj [("x", Json.obj []), ("y", Json.obj [])])] "id-1"
      rfl (by decide) (by decide) (by decide)).2 (by decide)⟩
